import Mathlib

/-!
# LavaPairingSystem — shallow embedding and verification

A shallow embedding of the Go provider-pairing system
(`github.com/Yoaz/LavaPairingSystem`): filters, scorers, the normalization
context builder, the weighted/average score combiner, and the
filter → rank → sort → truncate pipeline of `GetPairingList`.

Conventions of the embedding:
* Go `int64` is modelled as `ℤ`, Go `float64` as `ℚ` (exact arithmetic; the
  claims settled here compare scores whose gaps are far larger than any
  float64 rounding, so the order-theoretic conclusions transfer).
* Go `map[string]T` values are modelled as association lists
  `List (String × T)` queried with `List.lookup`; the maps built by the code
  are keyed by provider IDs or scorer names, which are pairwise distinct in
  every configuration the code constructs, so first-match lookup agrees with
  Go map semantics there.
* The goroutine worker pools of `parallelFilterProviders` and
  `RankProviders` deliver results in nondeterministic order; every result is
  a pure function of its input provider, so the collected multiset is
  deterministic.  They are modelled as order-preserving maps/filters over the
  input list; claims about the parallel paths are claims about membership,
  length and per-element values, which are order-independent.
-/

namespace LavaPairing

/-- Go struct `Provider` from `internal/models.go`: ID, Fee, Address, Stake, Location,
Features. -/
structure Provider where
  id : String
  fee : ℚ
  address : String
  stake : ℤ
  location : String
  features : List String
deriving DecidableEq

/-- Go struct `ConsumerPolicy` from `internal/models.go`: RequiredLocation,
RequiredFeatures, MinStake, Weights. -/
structure ConsumerPolicy where
  requiredLocation : String
  requiredFeatures : List String
  minStake : ℤ
  weights : List (String × ℚ)
deriving DecidableEq

/-- Go struct `PreScoreContext` from `internal/score/types.go` (the `AverageLatency`
field is never read by any scorer and is omitted). -/
structure PreScoreContext where
  maxStake : ℤ
  normalizedFees : List (String × ℚ)
deriving DecidableEq

/-- Go struct `PairingScore` from `internal/models.go`. -/
structure PairingScore where
  provider : Provider
  score : ℚ
  components : List (String × ℚ)
deriving DecidableEq

/-! ## Utilities (`internal/utils/utils.go`) -/

/-- Embeds `utils.ComputeMaxStake`: running maximum of the stakes, starting from 0. -/
def computeMaxStake (providers : List Provider) : ℤ :=
  providers.foldl (fun acc p => if p.stake > acc then p.stake else acc) 0

/-- The `maxFee` loop of `utils.ComputeNormalizedFees` (step 1): running
maximum of the fees, starting from 0. -/
def computeMaxFee (providers : List Provider) : ℚ :=
  providers.foldl (fun acc p => if p.fee > acc then p.fee else acc) 0

/-- Embeds `utils.ComputeNormalizedFees`: each provider's fee divided by the pool's
maximum fee, the maximum substituted with 1 when it is 0.  The Go code fills
a `map[string]float64` keyed by provider ID; modelled as an association
list (IDs are unique in the data model, so lookup agrees with the map). -/
def computeNormalizedFees (providers : List Provider) : List (String × ℚ) :=
  let maxFee := computeMaxFee providers
  let m := if maxFee = 0 then 1 else maxFee
  providers.map (fun p => (p.id, p.fee / m))

/-! ## Filters (`internal/filter/filter.go`)

The three filter implementations `LocationFilter`, `FeatureFilter`,
`StakeFilter` are modelled as one inductive type; `Filter.apply` and
`Filter.applySingle` embed the corresponding Go methods.  `FeatureFilter`
first collects `RequiredFeatures` into a set (`required` map) and checks each
key for membership in the provider's feature list; checking every element of
the raw `RequiredFeatures` list is extensionally the same predicate, since a
universally quantified check is unaffected by duplicates. -/

inductive Filter where
  | location
  | feature
  | stake
deriving DecidableEq

/-- The feature-superset predicate shared by `FeatureFilter.Apply` and
`FeatureFilter.ApplySingle`: every required feature occurs in the provider's
feature list. -/
def hasAllFeatures (p : Provider) (policy : ConsumerPolicy) : Bool :=
  policy.requiredFeatures.all (fun req => p.features.contains req)

/-- Method `ApplySingle` of each filter: `LocationFilter` compares locations with
Go `==` (exact, case-sensitive), `FeatureFilter` requires all required
features, `StakeFilter` requires `p.Stake >= policy.MinStake`. -/
def Filter.applySingle : Filter → Provider → ConsumerPolicy → Bool
  | .location, p, policy => p.location == policy.requiredLocation
  | .feature, p, policy => hasAllFeatures p policy
  | .stake, p, policy => decide (policy.minStake ≤ p.stake)

/-- Method `Apply` of each filter: the loop appending each passing provider to the
result, i.e. `List.filter` with the same predicate as `ApplySingle`. -/
def Filter.apply : Filter → List Provider → ConsumerPolicy → List Provider
  | .location, providers, policy =>
      providers.filter (fun p => p.location == policy.requiredLocation)
  | .feature, providers, policy =>
      providers.filter (fun p => hasAllFeatures p policy)
  | .stake, providers, policy =>
      providers.filter (fun p => decide (policy.minStake ≤ p.stake))

/-- Method `Filter.Name`. -/
def Filter.fname : Filter → String
  | .location => "LocationFilter"
  | .feature => "FeatureFilter"
  | .stake => "StakeFilter"

/-! ## Scorers (`internal/score/score.go`) -/

/-- Go `strings.EqualFold`, modelled as comparison of lowercased character
sequences (ASCII case folding; all strings in this development are ASCII). -/
def eqFold (a b : String) : Bool :=
  a.data.map Char.toLower == b.data.map Char.toLower

inductive Scorer where
  | stakeScore
  | featureScore
  | locationScore
  | feeScore
deriving DecidableEq

/-- Method `Scorer.Name`. -/
def Scorer.name : Scorer → String
  | .stakeScore => "StakeScore"
  | .featureScore => "FeatureScore"
  | .locationScore => "LocationScore"
  | .feeScore => "FeeScore"

/-- Embeds `StakeScore.Score`: 0 when `ctx.MaxStake` is 0, otherwise
`p.Stake / ctx.MaxStake`. -/
def stakeScoreFn (p : Provider) (ctx : PreScoreContext) : ℚ :=
  if ctx.maxStake = 0 then 0 else (p.stake : ℚ) / (ctx.maxStake : ℚ)

/-- The `extra` counter of `FeatureScore.Score`: number of provider features
not among the required features (the Go code looks each feature up in the
`required` set built from `RequiredFeatures`). -/
def extraFeatures (p : Provider) (policy : ConsumerPolicy) : ℕ :=
  (p.features.filter (fun pf => !(policy.requiredFeatures.contains pf))).length

/-- Embeds `FeatureScore.Score`: 0 when the provider has no features, otherwise
extra features / total features. -/
def featureScoreFn (p : Provider) (policy : ConsumerPolicy) : ℚ :=
  if p.features.length = 0 then 0
  else (extraFeatures p policy : ℚ) / (p.features.length : ℚ)

/-- Embeds `LocationScore.Score`: 1.0 on a case-insensitive location match
(`strings.EqualFold`), 0.5 otherwise. -/
def locationScoreFn (p : Provider) (policy : ConsumerPolicy) : ℚ :=
  if eqFold p.location policy.requiredLocation then 1 else 1/2

/-- Embeds `FeeScore.Score`: `1 - ctx.NormalizedFees[p.ID]`, or 0 when the ID is
absent from the map. -/
def feeScoreFn (p : Provider) (ctx : PreScoreContext) : ℚ :=
  match ctx.normalizedFees.lookup p.id with
  | some fee => 1 - fee
  | none => 0

/-- Dispatch of `scorer.Score(p, policy, ctx)` over the four scorer
implementations. -/
def scoreOf (s : Scorer) (p : Provider) (policy : ConsumerPolicy)
    (ctx : PreScoreContext) : ℚ :=
  match s with
  | .stakeScore => stakeScoreFn p ctx
  | .featureScore => featureScoreFn p policy
  | .locationScore => locationScoreFn p policy
  | .feeScore => feeScoreFn p ctx

/-! ## The pairing system (`internal/system/system.go`, `types.go`) -/

def topNProviders : ℕ := 5
def parallelFilterThreshold : ℕ := 50

/-- Go map insertion `m[k] = v`: overwrite the value at `k` if the key is
present, otherwise add the binding. -/
def mapInsert (m : List (String × ℚ)) (k : String) (v : ℚ) :
    List (String × ℚ) :=
  if m.any (fun kv => kv.1 == k) then
    m.map (fun kv => if kv.1 == k then (k, v) else kv)
  else m ++ [(k, v)]

/-- The `components` map built by `rankWorker`: for each scorer in order,
`components[scorer.Name()] = scorer.Score(p, policy, ctx)`. -/
def scoreComponents (scorers : List Scorer) (p : Provider)
    (policy : ConsumerPolicy) (ctx : PreScoreContext) : List (String × ℚ) :=
  scorers.foldl (fun m s => mapInsert m s.name (scoreOf s p policy ctx)) []

/-- The `totalScore` accumulator of `rankWorker`: sum of all scorer
outputs. -/
def totalScore (scorers : List Scorer) (p : Provider)
    (policy : ConsumerPolicy) (ctx : PreScoreContext) : ℚ :=
  (scorers.map (fun s => scoreOf s p policy ctx)).sum

/-- The `weightedSum` loop of `rankWorker`: iterate over the components map;
an entry whose name is found in `policy.Weights` contributes
`score * weight`, any other entry contributes nothing. -/
def weightedSum (components : List (String × ℚ))
    (weights : List (String × ℚ)) : ℚ :=
  components.foldl
    (fun acc kv =>
      match weights.lookup kv.1 with
      | some w => acc + kv.2 * w
      | none => acc) 0

/-- The `finalScore` computation of `rankWorker`: the weighted sum when
`policy.Weights` is non-empty; otherwise `totalScore / len(scorers)` when
there is at least one scorer, and the initial 0.0 when there is none. -/
def finalScore (scorers : List Scorer) (p : Provider)
    (policy : ConsumerPolicy) (ctx : PreScoreContext) : ℚ :=
  if policy.weights.length > 0 then
    weightedSum (scoreComponents scorers p policy ctx) policy.weights
  else if scorers.length > 0 then
    totalScore scorers p policy ctx / (scorers.length : ℚ)
  else 0

/-- The `PairingScore` record `rankWorker` sends for one provider. -/
def rankOne (scorers : List Scorer) (policy : ConsumerPolicy)
    (ctx : PreScoreContext) (p : Provider) : PairingScore :=
  { provider := p
    score := finalScore scorers p policy ctx
    components := scoreComponents scorers p policy ctx }

/-- The context `RankProviders` builds before scoring: `ComputeMaxStake`
with 0 replaced by 1, and `ComputeNormalizedFees`. -/
def buildPreScoreCtx (providers : List Provider) : PreScoreContext :=
  let currentMaxStake := computeMaxStake providers
  { maxStake := if currentMaxStake = 0 then 1 else currentMaxStake
    normalizedFees := computeNormalizedFees providers }

/-- Embeds `RankProviders`: empty input short-circuits to the empty list; otherwise
the normalization context is built once and every provider is scored against
it by the `rankWorker` pool (modelled in input order; the Go result order is
nondeterministic but carries the same records). -/
def rankProviders (scorers : List Scorer) (providers : List Provider)
    (policy : ConsumerPolicy) : List PairingScore :=
  if providers.length = 0 then []
  else
    let ctx := buildPreScoreCtx providers
    providers.map (rankOne scorers policy ctx)

/-- The conjunction tested by `filterWorker`: the provider passes every
filter's `ApplySingle`. -/
def passesAll (filters : List Filter) (p : Provider)
    (policy : ConsumerPolicy) : Bool :=
  filters.all (fun f => f.applySingle p policy)

/-- The sequential branch of `FilterProviders`: fold `filter.Apply` over the
filters in order. -/
def filterSeq (filters : List Filter) (providers : List Provider)
    (policy : ConsumerPolicy) : List Provider :=
  filters.foldl (fun acc f => f.apply acc policy) providers

/-- Embeds `parallelFilterProviders`: each provider is kept iff it passes every
filter's `ApplySingle` (modelled in input order; the Go result order is
nondeterministic but carries the same providers). -/
def filterPar (filters : List Filter) (providers : List Provider)
    (policy : ConsumerPolicy) : List Provider :=
  providers.filter (fun p => passesAll filters p policy)

/-- Embeds `FilterProviders`: empty input returns the empty list; lists of length
at most `parallelFilterThreshold` take the sequential branch, longer lists
the parallel worker branch. -/
def filterProviders (filters : List Filter) (providers : List Provider)
    (policy : ConsumerPolicy) : List Provider :=
  if providers.length = 0 then []
  else if providers.length ≤ parallelFilterThreshold then
    filterSeq filters providers policy
  else filterPar filters providers policy

/-- The `sort.Slice` step of `GetPairingList`: descending by final score.
`sort.Slice` is an unstable comparison sort; modelled with `mergeSort`,
which produces one of the valid descending orders. -/
def sortScores (scored : List PairingScore) : List PairingScore :=
  scored.mergeSort (fun a b => decide (b.score ≤ a.score))

/-- Embeds `GetPairingList`: filter; on an empty filtered set fail in strict mode
and return the empty list otherwise; else rank, sort descending by score,
and keep the top `min(topNProviders, len(scored))` providers. -/
def getPairingList (filters : List Filter) (scorers : List Scorer)
    (strictMode : Bool) (providers : List Provider)
    (policy : ConsumerPolicy) : Except String (List Provider) :=
  let filtered := filterProviders filters providers policy
  if filtered.length = 0 then
    if strictMode then
      .error "strict mode: no providers matched the filter criteria"
    else .ok []
  else
    let scored := rankProviders scorers filtered policy
    let sorted := sortScores scored
    let finalCount := Nat.min topNProviders sorted.length
    .ok ((sorted.take finalCount).map (fun sc => sc.provider))

/-! ## Configuration and mock data (`config/config.go`,
`internal/mock/mock.go`) -/

/-- The filter list built by `config.Init`. -/
def cfgFilters : List Filter := [.location, .feature, .stake]

/-- The scorer list built by `config.Init`. -/
def cfgScorers : List Scorer :=
  [.stakeScore, .featureScore, .locationScore, .feeScore]

def provider1 : Provider :=
  ⟨"1", 3.0, "provider1", 1000, "US-West", ["featA", "featB", "featC"]⟩
def provider2 : Provider :=
  ⟨"2", 0.015, "provider2", 2000, "US-East", ["featA", "featB"]⟩
def provider3 : Provider :=
  ⟨"3", 4.5, "provider3", 1500, "EU-Central", ["featA", "featC", "featD"]⟩
def provider4 : Provider :=
  ⟨"4", 0.005, "provider4", 500, "US-West", ["featB"]⟩
def provider5 : Provider :=
  ⟨"5", 0.8, "provider5", 2500, "US-West",
    ["featA", "featB", "featC", "featExtra"]⟩
def provider6 : Provider :=
  ⟨"6", 1.7, "provider6", 1200, "EU-Central", ["featA", "featD", "featE"]⟩
def provider7 : Provider :=
  ⟨"7", 2.0, "provider7", 800, "US-East",
    ["featA", "featB", "featC", "featX"]⟩
def provider8 : Provider :=
  ⟨"8", 2.5, "provider8", 3000, "US-West",
    ["featA", "featB", "featC", "featY", "featZ"]⟩

/-- Embeds `mock.Providers`. -/
def mockProviders : List Provider :=
  [provider1, provider2, provider3, provider4, provider5, provider6,
   provider7, provider8]

/-- Embeds `mock.ConsumerPolicy`: US-West, featA+featB, min stake 1000, weights for
Stake/Feature/Location (FeeScore deliberately omitted). -/
def mockPolicy : ConsumerPolicy :=
  { requiredLocation := "US-West"
    requiredFeatures := ["featA", "featB"]
    minStake := 1000
    weights :=
      [("StakeScore", 0.5), ("FeatureScore", 0.3), ("LocationScore", 0.2)] }

/-- The providers surviving the mock filter stage (IDs 1, 5, 8); the
normalization context `RankProviders` builds for them. -/
def ctxMock : PreScoreContext :=
  buildPreScoreCtx [provider1, provider5, provider8]

/-- A provider whose location differs from the mock policy's required
location only in letter case. -/
def cexProvider : Provider :=
  ⟨"c", 0, "provider-c", 5000, "us-west", ["featA", "featB"]⟩

/-- A policy requiring location "US-West" with no feature or stake
demands. -/
def cexPolicy : ConsumerPolicy :=
  { requiredLocation := "US-West"
    requiredFeatures := []
    minStake := 0
    weights := [] }

/-- A policy with an absent (empty) weight mapping, otherwise as the mock
policy. -/
def noWeightPolicy : ConsumerPolicy :=
  { requiredLocation := "US-West"
    requiredFeatures := ["featA", "featB"]
    minStake := 1000
    weights := [] }

/-- Two providers with stake 0, for the stakeless-pool scenario. -/
def zProviderA : Provider :=
  ⟨"zA", 1.5, "provider-zA", 0, "US-West", ["featA"]⟩
def zProviderB : Provider :=
  ⟨"zB", 0.5, "provider-zB", 0, "US-East", []⟩

/-! ## General lemmas -/

/-- Each filter's `Apply` is the `List.filter` of its `ApplySingle`. -/
lemma Filter.apply_eq_filter (f : Filter) (providers : List Provider)
    (policy : ConsumerPolicy) :
    f.apply providers policy =
      providers.filter (fun p => f.applySingle p policy) := by
  cases f <;> rfl

lemma filterSeq_eq_filter (filters : List Filter) (providers : List Provider)
    (policy : ConsumerPolicy) :
    filterSeq filters providers policy =
      providers.filter (fun p => passesAll filters p policy) := by
  induction filters generalizing providers with
  | nil =>
      simp [filterSeq, passesAll]
  | cons f fs ih =>
      have hstep : filterSeq (f :: fs) providers policy =
          filterSeq fs (f.apply providers policy) policy := rfl
      rw [hstep, ih, Filter.apply_eq_filter, List.filter_filter]
      apply List.filter_congr
      intro p _
      simp [passesAll, Bool.and_comm]

lemma filterProviders_eq_filter (filters : List Filter)
    (providers : List Provider) (policy : ConsumerPolicy) :
    filterProviders filters providers policy =
      providers.filter (fun p => passesAll filters p policy) := by
  rw [filterProviders]
  split
  · rename_i h
    rw [List.length_eq_zero] at h
    simp [h]
  · split
    · exact filterSeq_eq_filter filters providers policy
    · rfl

/-- The running-maximum fold never goes below its accumulator. -/
lemma le_foldl_max {α β : Type} [LinearOrder β] (f : α → β) :
    ∀ (l : List α) (acc : β),
      acc ≤ l.foldl (fun a x => if f x > a then f x else a) acc := by
  intro l
  induction l with
  | nil => intro acc; simp
  | cons x xs ih =>
      intro acc
      refine le_trans ?_ (ih (if f x > acc then f x else acc))
      split <;> simp_all [le_of_lt]

/-- The running-maximum fold dominates every listed value. -/
lemma mem_le_foldl_max {α β : Type} [LinearOrder β] (f : α → β) :
    ∀ (l : List α) (acc : β) (x : α), x ∈ l →
      f x ≤ l.foldl (fun a y => if f y > a then f y else a) acc := by
  intro l
  induction l with
  | nil => intro acc x hx; cases hx
  | cons y ys ih =>
      intro acc x hx
      cases hx with
      | head =>
          refine le_trans ?_ (le_foldl_max f ys _)
          by_cases h : f y > acc
          · simp [h]
          · simp [h, le_of_not_lt h]
      | tail _ hx => exact ih _ x hx

lemma computeMaxStake_nonneg (providers : List Provider) :
    0 ≤ computeMaxStake providers := by
  unfold computeMaxStake
  exact le_foldl_max (fun p => p.stake) providers 0

lemma stake_le_computeMaxStake (providers : List Provider) (p : Provider)
    (hp : p ∈ providers) : p.stake ≤ computeMaxStake providers := by
  unfold computeMaxStake
  exact mem_le_foldl_max (fun p => p.stake) providers 0 p hp

lemma computeMaxFee_nonneg (providers : List Provider) :
    0 ≤ computeMaxFee providers := by
  unfold computeMaxFee
  exact le_foldl_max (fun p => p.fee) providers 0

lemma fee_le_computeMaxFee (providers : List Provider) (p : Provider)
    (hp : p ∈ providers) : p.fee ≤ computeMaxFee providers := by
  unfold computeMaxFee
  exact mem_le_foldl_max (fun p => p.fee) providers 0 p hp

/-- A member's ID is found in the normalized-fee map, bound to some pool
member's normalized fee. -/
lemma lookup_map_key (g : Provider → ℚ) (l : List Provider) (p : Provider)
    (hp : p ∈ l) :
    ∃ q ∈ l, (l.map (fun r => (r.id, g r))).lookup p.id = some (g q) := by
  induction l with
  | nil => cases hp
  | cons a t ih =>
      by_cases ha : p.id == a.id
      · exact ⟨a, List.mem_cons_self a t, by simp [List.lookup, ha]⟩
      · cases hp with
        | head => simp at ha
        | tail _ hp =>
            rcases ih hp with ⟨q, hq, hlook⟩
            refine ⟨q, List.mem_cons_of_mem a hq, ?_⟩
            simpa [List.lookup, ha] using hlook

/-- When every name is fresh, the Go-map build of `scoreComponents` is a
plain `List.map` over the scorers. -/
lemma foldl_mapInsert_fresh (f : Scorer → ℚ) :
    ∀ (ss : List Scorer) (acc : List (String × ℚ)),
      (ss.map Scorer.name).Nodup →
      (∀ s ∈ ss, ∀ kv ∈ acc, kv.1 ≠ s.name) →
      ss.foldl (fun m s => mapInsert m s.name (f s)) acc =
        acc ++ ss.map (fun s => (s.name, f s)) := by
  intro ss
  induction ss with
  | nil => intro acc _ _; simp
  | cons s t ih =>
      intro acc hnd hfresh
      have hnd' : s.name ∉ t.map Scorer.name ∧ (t.map Scorer.name).Nodup :=
        List.nodup_cons.mp (by simpa using hnd)
      have hins : mapInsert acc s.name (f s) = acc ++ [(s.name, f s)] := by
        rw [mapInsert, if_neg]
        simp only [List.any_eq_true, not_exists, not_and]
        intro kv hkv
        simpa using hfresh s (List.mem_cons_self s t) kv hkv
      have hstep : (s :: t).foldl (fun m s => mapInsert m s.name (f s)) acc =
          t.foldl (fun m s => mapInsert m s.name (f s))
            (mapInsert acc s.name (f s)) := rfl
      rw [hstep, hins, ih (acc ++ [(s.name, f s)]) hnd'.2 ?_]
      · simp
      · intro u hu kv hkv
        rcases List.mem_append.mp hkv with hkv | hkv
        · exact hfresh u (List.mem_cons_of_mem s hu) kv hkv
        · simp only [List.mem_singleton] at hkv
          subst hkv
          intro hcontra
          simp only at hcontra
          exact hnd'.1 (hcontra ▸ List.mem_map_of_mem Scorer.name hu)

lemma scoreComponents_eq_map (scorers : List Scorer) (p : Provider)
    (policy : ConsumerPolicy) (ctx : PreScoreContext)
    (hnd : (scorers.map Scorer.name).Nodup) :
    scoreComponents scorers p policy ctx =
      scorers.map (fun s => (s.name, scoreOf s p policy ctx)) := by
  simpa using foldl_mapInsert_fresh (fun s => scoreOf s p policy ctx)
    scorers [] hnd (by simp)

/-- Recasts `weightedSum` as a sum over the component entries: a present name
contributes `value * weight`, an absent name contributes 0. -/
lemma weightedSum_eq_sum (weights : List (String × ℚ)) :
    ∀ (components : List (String × ℚ)),
      weightedSum components weights =
        (components.map (fun kv =>
          match weights.lookup kv.1 with
          | some w => kv.2 * w
          | none => 0)).sum := by
  have haux : ∀ (components : List (String × ℚ)) (acc : ℚ),
      components.foldl
        (fun acc kv =>
          match weights.lookup kv.1 with
          | some w => acc + kv.2 * w
          | none => acc) acc =
        acc + (components.map (fun kv =>
          match weights.lookup kv.1 with
          | some w => kv.2 * w
          | none => 0)).sum := by
    intro components
    induction components with
    | nil => intro acc; simp
    | cons kv t ih =>
        intro acc
        have hstep : (kv :: t).foldl
            (fun acc kv =>
              match weights.lookup kv.1 with
              | some w => acc + kv.2 * w
              | none => acc) acc =
            t.foldl (fun acc kv =>
              match weights.lookup kv.1 with
              | some w => acc + kv.2 * w
              | none => acc)
              (match weights.lookup kv.1 with
               | some w => acc + kv.2 * w
               | none => acc) := rfl
        rw [hstep, ih]
        rcases h : weights.lookup kv.1 with _ | w
        · simp [h]
        · simp only [h, List.map_cons, List.sum_cons]
          ring
  intro components
  simpa using haux components 0

/-- The `scoreComponents` shape for the configured scorer list. -/
lemma scoreComponents_cfg (p : Provider) (policy : ConsumerPolicy)
    (ctx : PreScoreContext) :
    scoreComponents cfgScorers p policy ctx =
      [("StakeScore", stakeScoreFn p ctx),
       ("FeatureScore", featureScoreFn p policy),
       ("LocationScore", locationScoreFn p policy),
       ("FeeScore", feeScoreFn p ctx)] := rfl

/-- Evaluation of `mergeSort` on a three-element list whose elements are
already in strictly ascending position with respect to `le`. -/
lemma mergeSort_three {α : Type} (le : α → α → Bool) (a b c : α)
    (h1 : le a b = false) (h2 : le b c = false) :
    [a, b, c].mergeSort le = [c, b, a] := by
  simp [List.mergeSort, List.splitInTwo, List.splitAt, List.splitAt.go,
    List.merge, h1, h2]

lemma rankProviders_length (scorers : List Scorer)
    (providers : List Provider) (policy : ConsumerPolicy) :
    (rankProviders scorers providers policy).length = providers.length := by
  rw [rankProviders]
  split
  · rename_i h
    simp [List.length_eq_zero.mp h]
  · simp

lemma rankProviders_map_provider (scorers : List Scorer)
    (providers : List Provider) (policy : ConsumerPolicy) :
    (rankProviders scorers providers policy).map (fun r => r.provider) =
      providers := by
  rw [rankProviders]
  split
  · rename_i h
    simp [List.length_eq_zero.mp h]
  · simp [Function.comp_def, rankOne]

lemma computeNormalizedFees_eq (providers : List Provider) :
    computeNormalizedFees providers =
      providers.map (fun r => (r.id,
        r.fee / (if computeMaxFee providers = 0 then 1
                 else computeMaxFee providers))) := rfl

lemma computeMaxStake_zero :
    ∀ providers : List Provider, (∀ q ∈ providers, q.stake = 0) →
      computeMaxStake providers = 0 := by
  intro providers
  induction providers with
  | nil => intro _; rfl
  | cons a t ih =>
      intro hz
      have ha : a.stake = 0 := hz a (List.mem_cons_self a t)
      have hstep : computeMaxStake (a :: t) =
          t.foldl (fun acc p => if p.stake > acc then p.stake else acc)
            (if a.stake > 0 then a.stake else 0) := rfl
      rw [hstep, ha, if_neg (by norm_num)]
      exact ih (fun q hq => hz q (List.mem_cons_of_mem a hq))

/-! ## Concrete evaluation of the mock scenario -/

lemma ctxMock_maxStake : ctxMock.maxStake = 3000 := rfl

lemma ctxMock_fees :
    ctxMock.normalizedFees = [("1", 1), ("5", 4/15), ("8", 5/6)] := by
  show computeNormalizedFees [provider1, provider5, provider8] = _
  rw [computeNormalizedFees]
  have hmax : computeMaxFee [provider1, provider5, provider8] = 3 := by
    rw [computeMaxFee]
    simp only [List.foldl, provider1, provider5, provider8]
    norm_num
  rw [hmax]
  norm_num [provider1, provider5, provider8]

lemma mock_weight_stake : mockPolicy.weights.lookup "StakeScore" = some 0.5 :=
  rfl
lemma mock_weight_feature :
    mockPolicy.weights.lookup "FeatureScore" = some 0.3 := rfl
lemma mock_weight_location :
    mockPolicy.weights.lookup "LocationScore" = some 0.2 := rfl
lemma mock_weight_fee : mockPolicy.weights.lookup "FeeScore" = none := rfl

lemma score_p1 :
    (rankOne cfgScorers mockPolicy ctxMock provider1).score = 7/15 := by
  show finalScore cfgScorers provider1 mockPolicy ctxMock = 7/15
  rw [finalScore, if_pos (by norm_num [mockPolicy]), weightedSum_eq_sum,
    scoreComponents_cfg]
  have h1 : stakeScoreFn provider1 ctxMock = 1/3 := by
    rw [stakeScoreFn, ctxMock_maxStake]
    norm_num [provider1]
  have h2 : featureScoreFn provider1 mockPolicy = 1/3 := by
    rw [featureScoreFn]
    have he : extraFeatures provider1 mockPolicy = 1 := rfl
    have hl : provider1.features.length = 3 := rfl
    rw [he, hl]
    norm_num
  have h3 : locationScoreFn provider1 mockPolicy = 1 := by
    rw [locationScoreFn, if_pos (by decide)]
  simp only [List.map_cons, List.map_nil, List.sum_cons, List.sum_nil,
    mock_weight_stake, mock_weight_feature, mock_weight_location,
    mock_weight_fee, h1, h2, h3]
  norm_num

lemma score_p5 :
    (rankOne cfgScorers mockPolicy ctxMock provider5).score = 23/30 := by
  show finalScore cfgScorers provider5 mockPolicy ctxMock = 23/30
  rw [finalScore, if_pos (by norm_num [mockPolicy]), weightedSum_eq_sum,
    scoreComponents_cfg]
  have h1 : stakeScoreFn provider5 ctxMock = 5/6 := by
    rw [stakeScoreFn, ctxMock_maxStake]
    norm_num [provider5]
  have h2 : featureScoreFn provider5 mockPolicy = 1/2 := by
    rw [featureScoreFn]
    have he : extraFeatures provider5 mockPolicy = 2 := rfl
    have hl : provider5.features.length = 4 := rfl
    rw [he, hl]
    norm_num
  have h3 : locationScoreFn provider5 mockPolicy = 1 := by
    rw [locationScoreFn, if_pos (by decide)]
  simp only [List.map_cons, List.map_nil, List.sum_cons, List.sum_nil,
    mock_weight_stake, mock_weight_feature, mock_weight_location,
    mock_weight_fee, h1, h2, h3]
  norm_num

lemma score_p8 :
    (rankOne cfgScorers mockPolicy ctxMock provider8).score = 22/25 := by
  show finalScore cfgScorers provider8 mockPolicy ctxMock = 22/25
  rw [finalScore, if_pos (by norm_num [mockPolicy]), weightedSum_eq_sum,
    scoreComponents_cfg]
  have h1 : stakeScoreFn provider8 ctxMock = 1 := by
    rw [stakeScoreFn, ctxMock_maxStake]
    norm_num [provider8]
  have h2 : featureScoreFn provider8 mockPolicy = 3/5 := by
    rw [featureScoreFn]
    have he : extraFeatures provider8 mockPolicy = 3 := rfl
    have hl : provider8.features.length = 5 := rfl
    rw [he, hl]
    norm_num
  have h3 : locationScoreFn provider8 mockPolicy = 1 := by
    rw [locationScoreFn, if_pos (by decide)]
  simp only [List.map_cons, List.map_nil, List.sum_cons, List.sum_nil,
    mock_weight_stake, mock_weight_feature, mock_weight_location,
    mock_weight_fee, h1, h2, h3]
  norm_num

lemma mock_filtered :
    filterProviders cfgFilters mockProviders mockPolicy =
      [provider1, provider5, provider8] := rfl

/-- Full evaluation of `GetPairingList` on the mock pool and policy:
provider 8 (score 22/25) outranks provider 5 (23/30), which outranks
provider 1 (7/15). -/
lemma mock_pipeline :
    getPairingList cfgFilters cfgScorers true mockProviders mockPolicy =
      Except.ok [provider8, provider5, provider1] := by
  have hrank : rankProviders cfgScorers [provider1, provider5, provider8]
      mockPolicy =
      [rankOne cfgScorers mockPolicy ctxMock provider1,
       rankOne cfgScorers mockPolicy ctxMock provider5,
       rankOne cfgScorers mockPolicy ctxMock provider8] := rfl
  have hsort : sortScores
      [rankOne cfgScorers mockPolicy ctxMock provider1,
       rankOne cfgScorers mockPolicy ctxMock provider5,
       rankOne cfgScorers mockPolicy ctxMock provider8] =
      [rankOne cfgScorers mockPolicy ctxMock provider8,
       rankOne cfgScorers mockPolicy ctxMock provider5,
       rankOne cfgScorers mockPolicy ctxMock provider1] := by
    apply mergeSort_three
    · rw [decide_eq_false_iff_not, score_p1, score_p5]
      norm_num
    · rw [decide_eq_false_iff_not, score_p5, score_p8]
      norm_num
  simp only [getPairingList, mock_filtered, hrank, hsort]
  norm_num [rankOne, topNProviders]

/-- On a non-empty filtered set, `GetPairingList` succeeds with
`min(topNProviders, number of filtered providers)` providers. -/
lemma getPairingList_ok_of_ne_nil (filters : List Filter)
    (scorers : List Scorer) (strictMode : Bool) (providers : List Provider)
    (policy : ConsumerPolicy)
    (h : (filterProviders filters providers policy).length ≠ 0) :
    ∃ res, getPairingList filters scorers strictMode providers policy =
        Except.ok res ∧
      res.length =
        Nat.min topNProviders (filterProviders filters providers policy).length := by
  refine ⟨((sortScores (rankProviders scorers
      (filterProviders filters providers policy) policy)).take
      (Nat.min topNProviders (sortScores (rankProviders scorers
      (filterProviders filters providers policy) policy)).length)).map
      (fun sc => sc.provider), by simp only [getPairingList, if_neg h], ?_⟩
  rw [List.length_map, List.length_take]
  have hsl : (sortScores (rankProviders scorers
      (filterProviders filters providers policy) policy)).length =
      (filterProviders filters providers policy).length := by
    rw [sortScores, List.length_mergeSort, rankProviders_length]
  rw [hsl]
  rw [Nat.min_assoc, Nat.min_self]

/-! ## Claim theorems -/

/-- C1 (counterexample): on the reference mock pool and policy, the
first-ranked provider returned by `GetPairingList` is provider 8, not
provider 5 as the claim states. -/
theorem scenarioA_counterexample :
    ((getPairingList cfgFilters cfgScorers true mockProviders
        mockPolicy).toOption.bind (fun l => l.head?)).map (fun p => p.id) ≠
      some "5" ∧
    ((getPairingList cfgFilters cfgScorers true mockProviders
        mockPolicy).toOption.bind (fun l => l.head?)).map (fun p => p.id) =
      some "8" := by
  rw [mock_pipeline]
  exact ⟨by simp [Except.toOption, provider8], rfl⟩

/-- C1 (amended): for the reference mock pool of 8 providers and the mock
policy, `FilterProviders` retains exactly providers 1, 5 and 8, and in the
result of `GetPairingList` provider 8 is ranked first (score 22/25, above
provider 5 at 23/30 and provider 1 at 7/15). -/
theorem scenarioA_amended :
    (filterProviders cfgFilters mockProviders mockPolicy).map (fun p => p.id)
      = ["1", "5", "8"] ∧
    getPairingList cfgFilters cfgScorers true mockProviders mockPolicy =
      Except.ok [provider8, provider5, provider1] :=
  ⟨by decide, mock_pipeline⟩

/-- C2 (counterexample): a provider whose location differs from the required
location only in letter case is case-insensitively equal to it, yet the
Location filter rejects it — the filter compares with Go `==`, not
`strings.EqualFold`. -/
theorem location_case_counterexample :
    eqFold cexProvider.location cexPolicy.requiredLocation = true ∧
    Filter.applySingle Filter.location cexProvider cexPolicy = false ∧
    Filter.apply Filter.location [cexProvider] cexPolicy = [] :=
  ⟨by decide, by decide, rfl⟩

/-- C2 (amended): the Location filter accepts a provider iff the provider's
location equals the policy's required location under exact (case-sensitive)
string comparison; a provider differing only in letter case is rejected. -/
theorem location_filter_exact (p : Provider) (policy : ConsumerPolicy) :
    Filter.applySingle Filter.location p policy = true ↔
      p.location = policy.requiredLocation := by
  simp [Filter.applySingle]

/-- C3: every filter's `Apply` is the subsequence of providers on which its
`ApplySingle` holds, the sequential and parallel paths of `FilterProviders`
agree, and a provider survives `FilterProviders` iff it passes every
configured filter's `ApplySingle`. -/
theorem filter_conjunctivity (filters : List Filter)
    (providers : List Provider) (policy : ConsumerPolicy) :
    (∀ f : Filter, f.apply providers policy =
      providers.filter (fun p => f.applySingle p policy)) ∧
    filterSeq filters providers policy = filterPar filters providers policy ∧
    ∀ p : Provider,
      p ∈ filterProviders filters providers policy ↔
        p ∈ providers ∧ ∀ f ∈ filters, f.applySingle p policy = true := by
  refine ⟨fun f => Filter.apply_eq_filter f providers policy, ?_, ?_⟩
  · rw [filterSeq_eq_filter]
    rfl
  · intro p
    rw [filterProviders_eq_filter, List.mem_filter]
    simp [passesAll]

/-- C4: `GetPairingList` fails iff strict mode is enabled and the filter
stage yields an empty set; lenient mode on the same input returns the empty
list with no error exactly when the filter stage is empty; and
`RankProviders` on an empty input returns the empty sequence. -/
theorem strict_lenient_error_behavior (filters : List Filter)
    (scorers : List Scorer) (strictMode : Bool) (providers : List Provider)
    (policy : ConsumerPolicy) :
    ((getPairingList filters scorers strictMode providers policy).isOk =
        false ↔
      strictMode = true ∧ filterProviders filters providers policy = []) ∧
    (getPairingList filters scorers false providers policy = Except.ok [] ↔
      filterProviders filters providers policy = []) ∧
    rankProviders scorers [] policy = [] := by
  by_cases hf : (filterProviders filters providers policy).length = 0
  · have hfe : filterProviders filters providers policy = [] :=
      List.length_eq_zero.mp hf
    refine ⟨?_, ?_, rfl⟩
    · cases strictMode
      · simp [getPairingList, hf, hfe, Except.isOk, Except.toBool]
      · simp [getPairingList, hf, hfe, Except.isOk, Except.toBool]
    · simp [getPairingList, hf, hfe]
  · have hfe : filterProviders filters providers policy ≠ [] := by
      intro heq
      exact hf (by simp [heq])
    obtain ⟨res, hok, hlen⟩ := getPairingList_ok_of_ne_nil filters scorers
      strictMode providers policy hf
    obtain ⟨res2, hok2, hlen2⟩ := getPairingList_ok_of_ne_nil filters scorers
      false providers policy hf
    have hres2 : res2 ≠ [] := by
      intro heq
      rw [heq] at hlen2
      simp only [List.length_nil] at hlen2
      have h5 : Nat.min topNProviders
          (filterProviders filters providers policy).length ≠ 0 := by
        intro hc
        have ht : Nat.min topNProviders
            (filterProviders filters providers policy).length =
            if topNProviders ≤
                (filterProviders filters providers policy).length
            then topNProviders
            else (filterProviders filters providers policy).length := rfl
        rw [ht] at hc
        by_cases hle : topNProviders ≤
            (filterProviders filters providers policy).length
        · rw [if_pos hle] at hc
          exact (by decide : topNProviders ≠ 0) hc
        · rw [if_neg hle] at hc
          exact hf hc
      exact h5 hlen2.symm
    refine ⟨?_, ?_, rfl⟩
    · rw [hok]
      simp [Except.isOk, Except.toBool, hfe]
    · rw [hok2]
      simp [hfe, hres2]

/-- C5: with an empty (or absent) weight mapping the final combined score is
the arithmetic mean of the raw scorer outputs, and with zero scorers the
final score is 0. -/
theorem average_mode (scorers : List Scorer) (p : Provider)
    (policy : ConsumerPolicy) (ctx : PreScoreContext)
    (hw : policy.weights = []) :
    finalScore scorers p policy ctx =
      totalScore scorers p policy ctx / (scorers.length : ℚ) ∧
    finalScore ([] : List Scorer) p policy ctx = 0 := by
  constructor
  · rw [finalScore, if_neg (by simp [hw])]
    by_cases hs : scorers.length > 0
    · rw [if_pos hs]
    · rw [if_neg hs]
      have hnil : scorers = [] := by
        simpa [List.length_eq_zero] using hs
      subst hnil
      simp [totalScore]
  · rw [finalScore]
    by_cases hw2 : policy.weights.length > 0
    · rw [if_pos hw2]
      rfl
    · rw [if_neg hw2, if_neg (by simp)]

/-- C5 witness: the theorem instantiated on the configured scorers, provider
1, the weightless policy and the mock context. -/
theorem average_mode_witness :
    finalScore cfgScorers provider1 noWeightPolicy ctxMock =
      totalScore cfgScorers provider1 noWeightPolicy ctxMock /
        ((cfgScorers.length : ℚ)) ∧
    finalScore ([] : List Scorer) provider1 noWeightPolicy ctxMock = 0 :=
  average_mode cfgScorers provider1 noWeightPolicy ctxMock rfl

/-- C6: with a non-empty weight mapping the final score is the sum over
scorers of (raw output × weight) for names present in the mapping and 0 for
absent names, and the `weightedSum` of a components list is unchanged when
the value of an entry whose name is absent from the mapping changes. -/
theorem weighted_mode (scorers : List Scorer) (p : Provider)
    (policy : ConsumerPolicy) (ctx : PreScoreContext)
    (pre post : List (String × ℚ)) (n : String) (v v' : ℚ)
    (hw : policy.weights ≠ [])
    (hnd : (scorers.map Scorer.name).Nodup)
    (habsent : policy.weights.lookup n = none) :
    finalScore scorers p policy ctx =
      (scorers.map (fun s =>
        match policy.weights.lookup s.name with
        | some w => scoreOf s p policy ctx * w
        | none => 0)).sum ∧
    weightedSum (pre ++ (n, v) :: post) policy.weights =
      weightedSum (pre ++ (n, v') :: post) policy.weights := by
  constructor
  · rw [finalScore, if_pos (by simpa [List.length_pos] using hw),
      weightedSum_eq_sum, scoreComponents_eq_map scorers p policy ctx hnd,
      List.map_map]
    rfl
  · rw [weightedSum_eq_sum, weightedSum_eq_sum]
    simp [habsent]

/-- C6 witness: the theorem instantiated on the configured scorers, provider
2, the mock policy (whose weight mapping omits the fee scorer) and the mock
context, with a one-entry components list keyed by the absent name. -/
theorem weighted_mode_witness :
    finalScore cfgScorers provider2 mockPolicy ctxMock =
      (cfgScorers.map (fun s =>
        match mockPolicy.weights.lookup s.name with
        | some w => scoreOf s provider2 mockPolicy ctxMock * w
        | none => 0)).sum ∧
    weightedSum ([] ++ ("FeeScore", 0) :: []) mockPolicy.weights =
      weightedSum ([] ++ ("FeeScore", 1) :: []) mockPolicy.weights :=
  weighted_mode cfgScorers provider2 mockPolicy ctxMock [] [] "FeeScore" 0 1
    (by simp [mockPolicy]) (by decide) rfl

/-- C7: for every provider of a well-formed pool (non-negative stakes and
fees, as the data model requires) and the normalization context
`RankProviders` builds for that pool, every scorer's output lies in the
closed interval from 0 to 1. -/
theorem scorer_bounded (pool : List Provider) (p : Provider) (s : Scorer)
    (policy : ConsumerPolicy) (hp : p ∈ pool)
    (hstake : ∀ q ∈ pool, 0 ≤ q.stake)
    (hfee : ∀ q ∈ pool, 0 ≤ q.fee) :
    0 ≤ scoreOf s p policy (buildPreScoreCtx pool) ∧
      scoreOf s p policy (buildPreScoreCtx pool) ≤ 1 := by
  cases s with
  | stakeScore =>
      show 0 ≤ stakeScoreFn p (buildPreScoreCtx pool) ∧
        stakeScoreFn p (buildPreScoreCtx pool) ≤ 1
      have hms : (buildPreScoreCtx pool).maxStake =
          (if computeMaxStake pool = 0 then 1 else computeMaxStake pool) :=
        rfl
      by_cases h0 : computeMaxStake pool = 0
      · have hzero : p.stake = 0 :=
          le_antisymm (h0 ▸ stake_le_computeMaxStake pool p hp)
            (hstake p hp)
        rw [stakeScoreFn, hms, if_pos h0, if_neg (by norm_num), hzero]
        norm_num
      · have hpos : 0 < computeMaxStake pool :=
          lt_of_le_of_ne (computeMaxStake_nonneg pool) (Ne.symm h0)
        rw [stakeScoreFn, hms, if_neg h0, if_neg h0]
        constructor
        · apply div_nonneg
          · exact_mod_cast hstake p hp
          · exact_mod_cast le_of_lt hpos
        · rw [div_le_one (by exact_mod_cast hpos)]
          exact_mod_cast stake_le_computeMaxStake pool p hp
  | featureScore =>
      show 0 ≤ featureScoreFn p policy ∧ featureScoreFn p policy ≤ 1
      rw [featureScoreFn]
      by_cases h0 : p.features.length = 0
      · rw [if_pos h0]
        norm_num
      · rw [if_neg h0]
        have hle : extraFeatures p policy ≤ p.features.length :=
          List.length_filter_le _ _
        have hpos : 0 < (p.features.length : ℚ) := by
          exact_mod_cast Nat.pos_of_ne_zero h0
        constructor
        · apply div_nonneg
          · exact_mod_cast Nat.zero_le _
          · exact le_of_lt hpos
        · rw [div_le_one hpos]
          exact_mod_cast hle
  | locationScore =>
      show 0 ≤ locationScoreFn p policy ∧ locationScoreFn p policy ≤ 1
      rw [locationScoreFn]
      split
      · norm_num
      · norm_num
  | feeScore =>
      show 0 ≤ feeScoreFn p (buildPreScoreCtx pool) ∧
        feeScoreFn p (buildPreScoreCtx pool) ≤ 1
      have hfees : (buildPreScoreCtx pool).normalizedFees =
          pool.map (fun r => (r.id,
            r.fee / (if computeMaxFee pool = 0 then 1
                     else computeMaxFee pool))) :=
        computeNormalizedFees_eq pool
      obtain ⟨q, hq, hlook⟩ := lookup_map_key
        (fun r => r.fee / (if computeMaxFee pool = 0 then 1
                           else computeMaxFee pool)) pool p hp
      rw [feeScoreFn, hfees, hlook]
      have hqf : 0 ≤ q.fee := hfee q hq
      have hqle : q.fee ≤ computeMaxFee pool := fee_le_computeMaxFee pool q hq
      by_cases h0 : computeMaxFee pool = 0
      · have hzero : q.fee = 0 := le_antisymm (h0 ▸ hqle) hqf
        rw [if_pos h0, hzero]
        norm_num
      · have hpos : 0 < computeMaxFee pool :=
          lt_of_le_of_ne (computeMaxFee_nonneg pool) (Ne.symm h0)
        rw [if_neg h0]
        have hdiv0 : 0 ≤ q.fee / computeMaxFee pool :=
          div_nonneg hqf (le_of_lt hpos)
        have hdiv1 : q.fee / computeMaxFee pool ≤ 1 :=
          (div_le_one hpos).mpr hqle
        constructor
        · linarith
        · linarith

/-- C7 witness: the fee scorer on provider 1 of the mock pool, whose stakes
and fees are all non-negative. -/
theorem scorer_bounded_witness :
    0 ≤ scoreOf Scorer.feeScore provider1 mockPolicy
        (buildPreScoreCtx mockProviders) ∧
      scoreOf Scorer.feeScore provider1 mockPolicy
        (buildPreScoreCtx mockProviders) ≤ 1 :=
  scorer_bounded mockProviders provider1 Scorer.feeScore mockPolicy
    (by simp [mockProviders])
    (by decide)
    (by norm_num [mockProviders, provider1, provider2, provider3, provider4,
      provider5, provider6, provider7, provider8, List.forall_mem_cons])

/-- C8: whenever `GetPairingList` succeeds, the returned list's length is
the minimum of `topNProviders` (5) and the number of providers surviving
the filter stage. -/
theorem topN_truncation (filters : List Filter) (scorers : List Scorer)
    (strictMode : Bool) (providers : List Provider)
    (policy : ConsumerPolicy) (res : List Provider)
    (h : getPairingList filters scorers strictMode providers policy =
      Except.ok res) :
    res.length =
      Nat.min topNProviders (filterProviders filters providers policy).length := by
  by_cases hf : (filterProviders filters providers policy).length = 0
  · have hok : getPairingList filters scorers strictMode providers policy =
        if strictMode then
          Except.error "strict mode: no providers matched the filter criteria"
        else Except.ok [] := by
      simp only [getPairingList]
      rw [if_pos hf]
    rw [hok] at h
    cases strictMode
    · simp only [Bool.false_eq_true, if_false, Except.ok.injEq] at h
      rw [← h, hf]
      rfl
    · simp only [if_true] at h
      cases h
  · obtain ⟨res2, hok, hlen⟩ := getPairingList_ok_of_ne_nil filters scorers
      strictMode providers policy hf
    rw [hok] at h
    cases h
    exact hlen

/-- C8 witness: on the mock input the returned list has length
`min(5, 3) = 3`. -/
theorem topN_truncation_witness :
    ([provider8, provider5, provider1] : List Provider).length =
      Nat.min topNProviders
        (filterProviders cfgFilters mockProviders mockPolicy).length :=
  topN_truncation cfgFilters cfgScorers true mockProviders mockPolicy
    [provider8, provider5, provider1] mock_pipeline

/-- C9: on a pool in which every provider has stake 0, the normalization
context substitutes 1 for the pool maximum, the stake score of every pool
member is 0, and the member's ranking record (produced without any
division-by-zero fault) carries a "StakeScore" component equal to 0. -/
theorem zero_stake_pool (policy : ConsumerPolicy) (pool : List Provider)
    (p : Provider) (hp : p ∈ pool) (hz : ∀ q ∈ pool, q.stake = 0) :
    (buildPreScoreCtx pool).maxStake = 1 ∧
    stakeScoreFn p (buildPreScoreCtx pool) = 0 ∧
    rankOne cfgScorers policy (buildPreScoreCtx pool) p ∈
      rankProviders cfgScorers pool policy ∧
    (rankOne cfgScorers policy (buildPreScoreCtx pool) p).components.lookup
      "StakeScore" = some 0 := by
  have hms : (buildPreScoreCtx pool).maxStake = 1 := by
    show (if computeMaxStake pool = 0 then 1 else computeMaxStake pool) = 1
    rw [computeMaxStake_zero pool hz]
    norm_num
  have hsc : stakeScoreFn p (buildPreScoreCtx pool) = 0 := by
    rw [stakeScoreFn, hms, if_neg (by norm_num), hz p hp]
    norm_num
  refine ⟨hms, hsc, ?_, ?_⟩
  · rw [rankProviders, if_neg (by
      simp [List.length_eq_zero, List.ne_nil_of_mem hp])]
    exact List.mem_map_of_mem _ hp
  · show (scoreComponents cfgScorers p policy (buildPreScoreCtx pool)).lookup
      "StakeScore" = some 0
    rw [scoreComponents_cfg]
    simp [List.lookup, hsc]

/-- C9 witness: a two-provider stakeless pool. -/
theorem zero_stake_pool_witness :
    (buildPreScoreCtx [zProviderA, zProviderB]).maxStake = 1 ∧
    stakeScoreFn zProviderA (buildPreScoreCtx [zProviderA, zProviderB]) = 0 ∧
    rankOne cfgScorers noWeightPolicy
        (buildPreScoreCtx [zProviderA, zProviderB]) zProviderA ∈
      rankProviders cfgScorers [zProviderA, zProviderB] noWeightPolicy ∧
    (rankOne cfgScorers noWeightPolicy
        (buildPreScoreCtx [zProviderA, zProviderB])
        zProviderA).components.lookup "StakeScore" = some 0 :=
  zero_stake_pool noWeightPolicy [zProviderA, zProviderB] zProviderA
    (by simp) (by decide)

/-- C10: `RankProviders` produces exactly one `PairingScore` per input
provider (its output has the input's length and maps back onto the input),
and each record's components map has exactly the configured scorers' names
as its keys, in particular the record of any given input provider. -/
theorem rank_output_shape (scorers : List Scorer)
    (providers : List Provider) (policy : ConsumerPolicy) (p : Provider)
    (hnd : (scorers.map Scorer.name).Nodup) (hp : p ∈ providers) :
    (rankProviders scorers providers policy).length = providers.length ∧
    (rankProviders scorers providers policy).map (fun r => r.provider) =
      providers ∧
    rankOne scorers policy (buildPreScoreCtx providers) p ∈
      rankProviders scorers providers policy ∧
    (rankOne scorers policy (buildPreScoreCtx providers) p).components.map
      Prod.fst = scorers.map Scorer.name := by
  refine ⟨rankProviders_length scorers providers policy,
    rankProviders_map_provider scorers providers policy, ?_, ?_⟩
  · rw [rankProviders, if_neg (by
      simp [List.length_eq_zero, List.ne_nil_of_mem hp])]
    exact List.mem_map_of_mem _ hp
  · show (scoreComponents scorers p policy
      (buildPreScoreCtx providers)).map Prod.fst = scorers.map Scorer.name
    rw [scoreComponents_eq_map scorers p policy _ hnd, List.map_map]
    rfl

/-- C10 witness: the configured scorers on the mock pool, with provider 3 as
the distinguished member. -/
theorem rank_output_shape_witness :
    (rankProviders cfgScorers mockProviders mockPolicy).length =
      mockProviders.length ∧
    (rankProviders cfgScorers mockProviders mockPolicy).map
      (fun r => r.provider) = mockProviders ∧
    rankOne cfgScorers mockPolicy (buildPreScoreCtx mockProviders)
        provider3 ∈
      rankProviders cfgScorers mockProviders mockPolicy ∧
    (rankOne cfgScorers mockPolicy (buildPreScoreCtx mockProviders)
        provider3).components.map Prod.fst = cfgScorers.map Scorer.name :=
  rank_output_shape cfgScorers mockProviders mockPolicy provider3
    (by decide) (by simp [mockProviders])

end LavaPairing
